import Mathlib

/-!
Shallow embedding of the input-to-locomotion mapping layer of the repository
(`src/main.rs`): the flat-mode keyboard controls (`apply_controls`), the
headset-mode controls (`apply_oxr_controls`) and the mouse look controller
(`mouse_look`), together with the pieces of vector and quaternion arithmetic
(glam semantics) they use.  Machine `f32` values are modelled as real numbers.
-/

noncomputable section

/-- 3D vector with real components, modelling glam `Vec3`. -/
structure Vec3 where
  x : ℝ
  y : ℝ
  z : ℝ

def Vec3.zero : Vec3 := ⟨0, 0, 0⟩

/-- glam `Vec3::X`. -/
def Vec3.X : Vec3 := ⟨1, 0, 0⟩

/-- glam `Vec3::Y`. -/
def Vec3.Y : Vec3 := ⟨0, 1, 0⟩

/-- glam `Vec3::Z`. -/
def Vec3.Z : Vec3 := ⟨0, 0, 1⟩

def Vec3.add (a b : Vec3) : Vec3 := ⟨a.x + b.x, a.y + b.y, a.z + b.z⟩

def Vec3.sub (a b : Vec3) : Vec3 := ⟨a.x - b.x, a.y - b.y, a.z - b.z⟩

/-- Componentwise scaling, modelling glam `Vec3 * f32`. -/
def Vec3.scale (v : Vec3) (k : ℝ) : Vec3 := ⟨v.x * k, v.y * k, v.z * k⟩

def Vec3.dot (a b : Vec3) : ℝ := a.x * b.x + a.y * b.y + a.z * b.z

def Vec3.cross (a b : Vec3) : Vec3 :=
  ⟨a.y * b.z - a.z * b.y, a.z * b.x - a.x * b.z, a.x * b.y - a.y * b.x⟩

/-- glam `Vec3::length_squared`. -/
def Vec3.length_squared (v : Vec3) : ℝ := Vec3.dot v v

/-- glam `Vec3::length`. -/
def Vec3.length (v : Vec3) : ℝ := Real.sqrt (Vec3.dot v v)

/-- glam `Vec3::normalize`: `self * self.length().recip()` (unguarded). -/
def Vec3.normalize (v : Vec3) : Vec3 := Vec3.scale v (1 / Vec3.length v)

/-- glam `Vec3::normalize_or_zero`: the normalized vector when the length is
positive (so that its reciprocal is finite and positive), zero otherwise. -/
def Vec3.normalize_or_zero (v : Vec3) : Vec3 :=
  if 0 < Vec3.length v then Vec3.scale v (1 / Vec3.length v) else Vec3.zero

/-- bevy `Vec3::with_y`: replace the vertical component. -/
def Vec3.with_y (v : Vec3) (y : ℝ) : Vec3 := ⟨v.x, y, v.z⟩

/-- glam `Vec3::angle_between`:
`acos(dot / sqrt(length_squared * length_squared))` (the `acos` clamps its
argument to `[-1, 1]`, as `Real.arccos` does). -/
def Vec3.angle_between (a b : Vec3) : ℝ :=
  Real.arccos (Vec3.dot a b / Real.sqrt (Vec3.length_squared a * Vec3.length_squared b))

/-- Quaternion `w + x i + y j + z k`, modelling glam `Quat`. -/
structure Quat where
  w : ℝ
  x : ℝ
  y : ℝ
  z : ℝ

def Quat.xyz (q : Quat) : Vec3 := ⟨q.x, q.y, q.z⟩

/-- glam `Quat::from_rotation_y`: `(0, sin(angle/2), 0; cos(angle/2))`. -/
def Quat.from_rotation_y (angle : ℝ) : Quat :=
  ⟨Real.cos (angle / 2), 0, Real.sin (angle / 2), 0⟩

/-- glam `Quat::from_axis_angle`: `(axis * sin(angle/2); cos(angle/2))`. -/
def Quat.from_axis_angle (axis : Vec3) (angle : ℝ) : Quat :=
  ⟨Real.cos (angle / 2), axis.x * Real.sin (angle / 2), axis.y * Real.sin (angle / 2),
    axis.z * Real.sin (angle / 2)⟩

/-- Hamilton product, modelling glam `Quat::mul_quat`. -/
def Quat.mul (a b : Quat) : Quat :=
  ⟨a.w * b.w - a.x * b.x - a.y * b.y - a.z * b.z,
    a.w * b.x + a.x * b.w + a.y * b.z - a.z * b.y,
    a.w * b.y - a.x * b.z + a.y * b.w + a.z * b.x,
    a.w * b.z + a.x * b.y - a.y * b.x + a.z * b.w⟩

/-- glam `Quat::mul_vec3` (scalar path):
`rhs * (w*w - dot(b,b)) + b * (dot(rhs,b) * 2) + cross(b,rhs) * (w * 2)`
where `b` is the vector part. -/
def Quat.mul_vec3 (q : Quat) (v : Vec3) : Vec3 :=
  Vec3.add
    (Vec3.add (Vec3.scale v (q.w * q.w - Vec3.dot q.xyz q.xyz))
      (Vec3.scale q.xyz (Vec3.dot v q.xyz * 2)))
    (Vec3.scale (Vec3.cross q.xyz v) (q.w * 2))

/-- Keyboard state sampled for one frame: whether each key checked by
`apply_controls` is currently held. -/
structure Keyboard where
  arrowUp : Bool
  keyW : Bool
  arrowDown : Bool
  keyS : Bool
  arrowLeft : Bool
  keyA : Bool
  arrowRight : Bool
  keyD : Bool
  space : Bool

/-- `TnuaBuiltinWalk` fields set by this program. -/
structure TnuaBuiltinWalk where
  desired_velocity : Vec3
  float_height : ℝ

/-- `TnuaBuiltinJump` fields set by this program. -/
structure TnuaBuiltinJump where
  height : ℝ

/-- One call into the external character-controller sink:
`controller.basis(...)` or `controller.action(...)`. -/
inductive SinkCall where
  | basis (walk : TnuaBuiltinWalk)
  | action (jump : TnuaBuiltinJump)

/-- `XRUtilsActionState`: tagged per-frame action value. -/
inductive ActionState where
  | bool (b : Bool)
  | float (f : ℝ)
  | vector (vx vy : ℝ)

/-- The basis calls among the sink calls of a frame. -/
def walkCalls (calls : List SinkCall) : List TnuaBuiltinWalk :=
  calls.filterMap fun c =>
    match c with
    | SinkCall.basis w => some w
    | SinkCall.action _ => none

/-- The action calls among the sink calls of a frame. -/
def jumpCalls (calls : List SinkCall) : List TnuaBuiltinJump :=
  calls.filterMap fun c =>
    match c with
    | SinkCall.basis _ => none
    | SinkCall.action j => some j

/-- Digital movement intent of `apply_controls` (main.rs lines 242-255): the
unnormalized sum of unit contributions of the held directional keys. -/
def intentVec (kb : Keyboard) : Vec3 :=
  let m := Vec3.zero
  let m := if kb.arrowUp || kb.keyW then Vec3.add m Vec3.Z else m
  let m := if kb.arrowDown || kb.keyS then Vec3.sub m Vec3.Z else m
  let m := if kb.arrowLeft || kb.keyA then Vec3.add m Vec3.X else m
  let m := if kb.arrowRight || kb.keyD then Vec3.sub m Vec3.X else m
  m

/-- Flattened, normalized camera forward of `apply_controls` (main.rs lines
257-258).  Bevy `Transform::forward` is the rotated local `-Z` axis, so the
camera forward is `rotation * (0,0,-1)`. -/
def flat_forward (cam : Quat) : Vec3 :=
  Vec3.normalize (Vec3.with_y (Quat.mul_vec3 cam ⟨0, 0, -1⟩) 0)

/-- Basis rotation of `apply_controls` (main.rs lines 260-266): rotate about Y
by minus the unsigned angle to `+Z` when the cross product with `+Z` points up,
by plus that angle otherwise. -/
def flat_rotation (forward : Vec3) : Quat :=
  let angle := Vec3.angle_between forward Vec3.Z
  if 0 < (Vec3.cross forward Vec3.Z).y then Quat.from_rotation_y (-angle)
  else Quat.from_rotation_y angle

/-- `apply_controls` (main.rs lines 229-292): the sink calls made during one
frame, given whether the `TnuaController` entity exists, the camera transform
rotation when the `CameraControl` camera exists, and the keyboard state. -/
def apply_controls (controller_present : Bool) (camera : Option Quat) (kb : Keyboard) :
    List SinkCall :=
  if controller_present then
    match camera with
    | some cam =>
        SinkCall.basis
            ⟨Vec3.scale (Quat.mul_vec3 (flat_rotation (flat_forward cam)) (intentVec kb)) 5,
              1.1⟩ ::
          (if kb.space then [SinkCall.action ⟨2⟩] else [])
    | none => []
  else []

/-- Headset-mode movement vector of `apply_oxr_controls` (main.rs lines
196-208): embed the 2D stick input as `(x, 0, -y)`, rotate by the view
orientation, re-flatten, renormalize, and rescale by the input length. -/
def oxrMovement (view : Quat) (sx sy : ℝ) : Vec3 :=
  Vec3.scale
    (Vec3.normalize_or_zero (Vec3.with_y (Quat.mul_vec3 view ⟨sx, 0, -sy⟩) 0))
    (Vec3.length ⟨sx, 0, -sy⟩)

/-- The iteration of `apply_oxr_controls` over the action states (main.rs lines
189-225): boolean and float states are skipped; a vector state emits a basis
when a first view exists and returns from the whole system when none does. -/
def apply_oxr_loop (views : List Quat) (states : List ActionState) : List SinkCall :=
  match states with
  | [] => []
  | ActionState.bool _ :: rest => apply_oxr_loop views rest
  | ActionState.float _ :: rest => apply_oxr_loop views rest
  | ActionState.vector sx sy :: rest =>
      match views.head? with
      | some v => SinkCall.basis ⟨Vec3.scale (oxrMovement v sx sy) 5, 1.1⟩ :: apply_oxr_loop views rest
      | none => []

/-- `apply_oxr_controls` (main.rs lines 178-226): early return when the
character query fails, then the loop over action states. -/
def apply_oxr_controls (char_present : Bool) (states : List ActionState)
    (views : List Quat) : List SinkCall :=
  if char_present then apply_oxr_loop views states else []

/-- `MouseSettings` resource (main.rs lines 300-304). -/
structure MouseSettings where
  sensitivity : ℝ
  pitch_limit : ℝ

/-- The settings inserted at startup (main.rs lines 34-37). -/
def mouseSettingsConfig : MouseSettings := ⟨0.04, 90⟩

/-- `CameraControl` component (main.rs lines 294-298). -/
structure CameraControl where
  pitch : ℝ
  yaw : ℝ

/-- Rust `f32::to_radians`: multiply by `pi / 180`. -/
def toRadians (d : ℝ) : ℝ := d * (Real.pi / 180)

/-- Rust `f32::clamp(lo, hi)`: `self.max(lo).min(hi)`. -/
def rclamp (v lo hi : ℝ) : ℝ := min (max v lo) hi

/-- Body of the `mouse_look` event loop (main.rs lines 313-322) for one
`MouseMotion` event: update yaw and clamped pitch, then set the camera
rotation. -/
def mouse_look_step (s : MouseSettings) (st : CameraControl × Quat) (ev : ℝ × ℝ) :
    CameraControl × Quat :=
  let yaw := st.1.yaw - ev.1 * s.sensitivity
  let pitch := rclamp (st.1.pitch - ev.2 * s.sensitivity) (-s.pitch_limit) s.pitch_limit
  (⟨pitch, yaw⟩,
    Quat.mul (Quat.from_axis_angle Vec3.Y (toRadians yaw))
      (Quat.from_axis_angle Vec3.X (toRadians pitch)))

/-- `mouse_look` (main.rs lines 306-324) for the single controlled camera: fold
the per-event update over the motion events of the frame. -/
def mouse_look (s : MouseSettings) (events : List (ℝ × ℝ)) (st : CameraControl × Quat) :
    CameraControl × Quat :=
  events.foldl (mouse_look_step s) st

/-! ### Helper lemmas about the embedded arithmetic -/

/-- Action of the rotation-about-Y quaternion on a vector. -/
theorem rotY_mul_vec3 (α : ℝ) (v : Vec3) :
    Quat.mul_vec3 (Quat.from_rotation_y α) v =
      ⟨v.x * Real.cos α + v.z * Real.sin α, v.y,
        v.z * Real.cos α - v.x * Real.sin α⟩ := by
  have hs := Real.sin_two_mul (α / 2)
  have hc := Real.cos_two_mul' (α / 2)
  have hp := Real.sin_sq_add_cos_sq (α / 2)
  rw [show 2 * (α / 2) = α by ring] at hs hc
  simp only [Quat.mul_vec3, Quat.from_rotation_y, Quat.xyz, Vec3.dot, Vec3.cross, Vec3.scale,
    Vec3.add]
  rw [Vec3.mk.injEq]
  refine ⟨?_, ?_, ?_⟩
  · linear_combination (-v.x) * hc - v.z * hs
  · linear_combination v.y * hp
  · linear_combination (-v.z) * hc + v.x * hs

/-- A rotation about Y preserves lengths. -/
theorem length_rotY_mul_vec3 (α : ℝ) (v : Vec3) :
    Vec3.length (Quat.mul_vec3 (Quat.from_rotation_y α) v) = Vec3.length v := by
  rw [rotY_mul_vec3]
  unfold Vec3.length Vec3.dot
  congr 1
  linear_combination (v.x ^ 2 + v.z ^ 2) * Real.sin_sq_add_cos_sq α

/-- The basis rotation of the flat path preserves lengths (it is a rotation
about Y in both branches of the sign selection). -/
theorem length_flat_rotation_mul_vec3 (f v : Vec3) :
    Vec3.length (Quat.mul_vec3 (flat_rotation f) v) = Vec3.length v := by
  unfold flat_rotation
  split
  · exact length_rotY_mul_vec3 _ v
  · exact length_rotY_mul_vec3 _ v

theorem Vec3.length_nonneg (v : Vec3) : 0 ≤ Vec3.length v := Real.sqrt_nonneg _

theorem Vec3.length_pos (v : Vec3) (h : v ≠ Vec3.zero) : 0 < Vec3.length v := by
  rcases lt_or_eq_of_le (Vec3.length_nonneg v) with hlt | heq
  · exact hlt
  · exfalso
    apply h
    have h0 : Vec3.dot v v ≤ 0 := Real.sqrt_eq_zero'.mp heq.symm
    obtain ⟨a, b, c⟩ := v
    simp only [Vec3.dot] at h0
    have ha : a = 0 := by nlinarith
    have hb : b = 0 := by nlinarith
    have hcz : c = 0 := by nlinarith
    simp [Vec3.zero, ha, hb, hcz]

theorem Vec3.length_scale (v : Vec3) (k : ℝ) :
    Vec3.length (Vec3.scale v k) = |k| * Vec3.length v := by
  have h : Vec3.dot (Vec3.scale v k) (Vec3.scale v k) = k ^ 2 * Vec3.dot v v := by
    simp only [Vec3.dot, Vec3.scale]
    ring
  unfold Vec3.length
  rw [h, Real.sqrt_mul (sq_nonneg k), Real.sqrt_sq_eq_abs]

theorem Vec3.length_normalize (v : Vec3) (h : v ≠ Vec3.zero) :
    Vec3.length (Vec3.normalize v) = 1 := by
  have hp : 0 < Vec3.length v := Vec3.length_pos v h
  unfold Vec3.normalize
  rw [Vec3.length_scale, abs_of_pos (by positivity), one_div,
    inv_mul_cancel₀ (ne_of_gt hp)]

theorem Quat.mul_vec3_zero (q : Quat) : Quat.mul_vec3 q Vec3.zero = Vec3.zero := by
  simp only [Quat.mul_vec3, Quat.xyz, Vec3.dot, Vec3.cross, Vec3.scale, Vec3.add, Vec3.zero]
  rw [Vec3.mk.injEq]
  refine ⟨by ring, by ring, by ring⟩

/-- The flattened forward direction has no vertical component. -/
theorem flat_forward_y (cam : Quat) : (flat_forward cam).y = 0 := by
  simp [flat_forward, Vec3.normalize, Vec3.scale, Vec3.with_y]

/-- Rotating `(0,0,-1)` by any quaternion of the shape `(t; t,0,0)` (a rotation
about X by a quarter turn when `t = sqrt 2 / 2`) and flattening gives zero. -/
theorem rotX_like_flattened_zero (t : ℝ) :
    Vec3.with_y (Quat.mul_vec3 ⟨t, t, 0, 0⟩ ⟨0, 0, -1⟩) 0 = Vec3.zero := by
  simp only [Quat.mul_vec3, Quat.xyz, Vec3.dot, Vec3.cross, Vec3.scale, Vec3.add, Vec3.with_y,
    Vec3.zero]
  rw [Vec3.mk.injEq]
  refine ⟨by ring, by ring, by ring⟩

/-- Sign selection of the flat-mode basis rotation: for any unit forward
vector with no vertical component, the rotation chosen by the cross-product
test maps `+Z` to that forward vector. -/
theorem flat_rotation_maps_Z (f : Vec3) (hy : f.y = 0) (hl : Vec3.length f = 1) :
    Quat.mul_vec3 (flat_rotation f) Vec3.Z = f := by
  obtain ⟨a, b, c⟩ := f
  simp only at hy
  subst hy
  have hsq : a * a + c * c = 1 := by
    have hd : Vec3.dot ⟨a, 0, c⟩ ⟨a, 0, c⟩ = a * a + c * c := by
      simp [Vec3.dot]
    have h1 : Real.sqrt (a * a + c * c) = 1 := by
      rw [← hd]
      exact hl
    have h0 : 0 ≤ a * a + c * c := by nlinarith
    nlinarith [Real.sq_sqrt h0, h1]
  have hc1 : -1 ≤ c := by nlinarith
  have hc2 : c ≤ 1 := by nlinarith
  have hang : Vec3.angle_between ⟨a, 0, c⟩ Vec3.Z = Real.arccos c := by
    have e1 : Vec3.dot ⟨a, 0, c⟩ Vec3.Z = c := by simp [Vec3.dot, Vec3.Z]
    have e2 : Vec3.length_squared ⟨a, 0, c⟩ = 1 := by
      simp only [Vec3.length_squared, Vec3.dot]
      nlinarith
    have e3 : Vec3.length_squared Vec3.Z = 1 := by
      simp [Vec3.length_squared, Vec3.dot, Vec3.Z]
    unfold Vec3.angle_between
    rw [e1, e2, e3, one_mul, Real.sqrt_one, div_one]
  have hcr : (Vec3.cross ⟨a, 0, c⟩ Vec3.Z).y = -a := by
    simp [Vec3.cross, Vec3.Z]
  have hsin : Real.sin (Real.arccos c) = Real.sqrt (1 - c ^ 2) := Real.sin_arccos c
  have hcos : Real.cos (Real.arccos c) = c := Real.cos_arccos hc1 hc2
  unfold flat_rotation
  rw [hang, hcr]
  by_cases hA : 0 < -a
  · rw [if_pos hA, rotY_mul_vec3]
    have hQ : Real.sqrt (1 - c ^ 2) = -a := by
      rw [show 1 - c ^ 2 = (-a) ^ 2 by nlinarith]
      exact Real.sqrt_sq (by linarith)
    simp only [Vec3.Z]
    rw [Vec3.mk.injEq]
    refine ⟨?_, rfl, ?_⟩
    · rw [Real.sin_neg, hsin, hQ]
      ring
    · rw [Real.cos_neg, hcos]
      ring
  · rw [if_neg hA, rotY_mul_vec3]
    have ha0 : 0 ≤ a := by
      by_contra hcon
      exact hA (by linarith)
    have hQ : Real.sqrt (1 - c ^ 2) = a := by
      rw [show 1 - c ^ 2 = a ^ 2 by nlinarith]
      exact Real.sqrt_sq ha0
    simp only [Vec3.Z]
    rw [Vec3.mk.injEq]
    refine ⟨?_, rfl, ?_⟩
    · rw [hsin, hQ]
      ring
    · rw [hcos]
      ring

/-- With no view in the list, the loop of `apply_oxr_controls` makes no call. -/
theorem apply_oxr_loop_no_view (states : List ActionState) :
    apply_oxr_loop [] states = [] := by
  induction states with
  | nil => rfl
  | cons s rest ih =>
      cases s with
      | bool b => simpa [apply_oxr_loop] using ih
      | float f => simpa [apply_oxr_loop] using ih
      | vector vx vy => simp [apply_oxr_loop]

/-! ### Claims -/

/-- Claim C1: for every camera orientation whose flattened, normalized forward
vector is a unit vector, the basis rotation computed by `apply_controls`
(rotation about Y by minus the unsigned angle to `+Z` when the cross product
with `+Z` has positive vertical component, by plus that angle otherwise) maps
the forward-key intent `+Z` to the flattened camera forward direction, for
every azimuth, including the anti-parallel case. -/
theorem c1_flat_sign_selection (cam : Quat)
    (h : Vec3.length (flat_forward cam) = 1) :
    Quat.mul_vec3 (flat_rotation (flat_forward cam)) Vec3.Z = flat_forward cam :=
  flat_rotation_maps_Z _ (flat_forward_y cam) h

/-- Witness for C1 at the identity camera orientation, whose flattened forward
`(0,0,-1)` is anti-parallel to `+Z`. -/
theorem c1_flat_sign_selection_witness :
    Vec3.length (flat_forward ⟨1, 0, 0, 0⟩) = 1 ∧
      Quat.mul_vec3 (flat_rotation (flat_forward ⟨1, 0, 0, 0⟩)) Vec3.Z =
        flat_forward ⟨1, 0, 0, 0⟩ := by
  have hv : Vec3.with_y (Quat.mul_vec3 ⟨1, 0, 0, 0⟩ ⟨0, 0, -1⟩) 0 = ⟨0, 0, -1⟩ := by
    simp only [Quat.mul_vec3, Quat.xyz, Vec3.dot, Vec3.cross, Vec3.scale, Vec3.add, Vec3.with_y]
    rw [Vec3.mk.injEq]
    refine ⟨by ring, rfl, by ring⟩
  have hne : (⟨0, 0, -1⟩ : Vec3) ≠ Vec3.zero := by
    rw [Vec3.zero]
    intro hz
    rw [Vec3.mk.injEq] at hz
    norm_num at hz
  have h : Vec3.length (flat_forward ⟨1, 0, 0, 0⟩) = 1 := by
    unfold flat_forward
    rw [hv]
    exact Vec3.length_normalize _ hne
  exact ⟨h, c1_flat_sign_selection _ h⟩

/-- Claim C2: for every sequence of mouse-delta events and every initial pitch
within the pitch limit (the limit being nonnegative, as the configured 90
degrees is), the pitch stored in `CameraControl` after `mouse_look` stays
within the limit, regardless of the cumulative delta magnitude. -/
theorem c2_pitch_clamp_invariant (sens limit : ℝ) (events : List (ℝ × ℝ))
    (st : CameraControl × Quat) (hL : 0 ≤ limit)
    (h1 : -limit ≤ st.1.pitch) (h2 : st.1.pitch ≤ limit) :
    -limit ≤ (mouse_look ⟨sens, limit⟩ events st).1.pitch ∧
      (mouse_look ⟨sens, limit⟩ events st).1.pitch ≤ limit := by
  induction events generalizing st with
  | nil => exact ⟨h1, h2⟩
  | cons e rest ih =>
      have hstep : mouse_look ⟨sens, limit⟩ (e :: rest) st =
          mouse_look ⟨sens, limit⟩ rest (mouse_look_step ⟨sens, limit⟩ st e) := rfl
      rw [hstep]
      apply ih
      · simp only [mouse_look_step, rclamp]
        exact le_min (le_max_right _ _) (by linarith)
      · simp only [mouse_look_step, rclamp]
        exact min_le_right _ _

/-- Witness for C2 at the configured settings, one huge downward delta. -/
theorem c2_pitch_clamp_invariant_witness :
    (0 : ℝ) ≤ 90 ∧ -(90 : ℝ) ≤ 0 ∧ (0 : ℝ) ≤ 90 ∧
      (-(90 : ℝ) ≤ (mouse_look ⟨0.04, 90⟩ [(0, 10000)] (⟨0, 0⟩, ⟨1, 0, 0, 0⟩)).1.pitch ∧
        (mouse_look ⟨0.04, 90⟩ [(0, 10000)] (⟨0, 0⟩, ⟨1, 0, 0, 0⟩)).1.pitch ≤ 90) :=
  ⟨by norm_num, by norm_num, by norm_num,
    c2_pitch_clamp_invariant 0.04 90 [(0, 10000)] (⟨0, 0⟩, ⟨1, 0, 0, 0⟩)
      (by norm_num) (by norm_num) (by norm_num)⟩

/-- Claim C7: for a single accumulated mouse-delta event, `mouse_look` updates
yaw by subtracting the scaled horizontal delta, updates pitch by the clamped
subtraction of the scaled vertical delta, and sets the camera rotation to the
product of the yaw rotation about Y and the pitch rotation about X; with no
events the state and the rotation are left unchanged. -/
theorem c7_look_controller_contract (s : MouseSettings) (st : CameraControl × Quat)
    (dx dy : ℝ) :
    mouse_look s [(dx, dy)] st =
      (⟨rclamp (st.1.pitch - dy * s.sensitivity) (-s.pitch_limit) s.pitch_limit,
          st.1.yaw - dx * s.sensitivity⟩,
        Quat.mul (Quat.from_axis_angle Vec3.Y (toRadians (st.1.yaw - dx * s.sensitivity)))
          (Quat.from_axis_angle Vec3.X
            (toRadians
              (rclamp (st.1.pitch - dy * s.sensitivity) (-s.pitch_limit) s.pitch_limit)))) ∧
      mouse_look s [] st = st :=
  ⟨rfl, rfl⟩

/-- Claim C3: the digital movement intent is the unnormalized sum of unit key
contributions, the emitted desired velocity is the basis rotation applied to
the intent and scaled by 5, and holding forward and left together yields a
desired velocity of magnitude `sqrt 2 * 5`. -/
theorem c3_locomotion_mapper (cam : Quat) (kb : Keyboard)
    (hf : (kb.arrowUp || kb.keyW) = true) (hb : (kb.arrowDown || kb.keyS) = false)
    (hl : (kb.arrowLeft || kb.keyA) = true) (hr : (kb.arrowRight || kb.keyD) = false) :
    walkCalls (apply_controls true (some cam) kb) =
      [⟨Vec3.scale (Quat.mul_vec3 (flat_rotation (flat_forward cam)) (intentVec kb)) 5,
        1.1⟩] ∧
    intentVec kb = ⟨1, 0, 1⟩ ∧
    Vec3.length
        (Vec3.scale (Quat.mul_vec3 (flat_rotation (flat_forward cam)) (intentVec kb)) 5) =
      Real.sqrt 2 * 5 := by
  have hint : intentVec kb = ⟨1, 0, 1⟩ := by
    simp [intentVec, hf, hb, hl, hr, Vec3.add, Vec3.sub, Vec3.zero, Vec3.Z, Vec3.X]
  refine ⟨?_, hint, ?_⟩
  · by_cases hs : kb.space <;> simp [apply_controls, walkCalls, hs]
  · rw [Vec3.length_scale, length_flat_rotation_mul_vec3, hint]
    have hd : Vec3.length ⟨1, 0, 1⟩ = Real.sqrt 2 := by
      unfold Vec3.length Vec3.dot
      norm_num
    rw [hd, abs_of_pos (by norm_num : (0 : ℝ) < 5)]
    ring

/-- Witness for C3: forward and left keys held, camera at identity. -/
theorem c3_locomotion_mapper_witness :
    ((Keyboard.mk false true false false false true false false false).arrowUp ||
        (Keyboard.mk false true false false false true false false false).keyW) = true ∧
    ((Keyboard.mk false true false false false true false false false).arrowDown ||
        (Keyboard.mk false true false false false true false false false).keyS) = false ∧
    intentVec (Keyboard.mk false true false false false true false false false) = ⟨1, 0, 1⟩ ∧
    Vec3.length
        (Vec3.scale
          (Quat.mul_vec3 (flat_rotation (flat_forward ⟨1, 0, 0, 0⟩))
            (intentVec (Keyboard.mk false true false false false true false false false))) 5) =
      Real.sqrt 2 * 5 :=
  ⟨rfl, rfl,
    (c3_locomotion_mapper ⟨1, 0, 0, 0⟩
        (Keyboard.mk false true false false false true false false false) rfl rfl rfl rfl).2.1,
    (c3_locomotion_mapper ⟨1, 0, 0, 0⟩
        (Keyboard.mk false true false false false true false false false) rfl rfl rfl rfl).2.2⟩

/-- Claim C8: in flat mode, whenever the character and the camera exist, one
basis command with float height 1.1 is emitted regardless of the held keys,
and with no movement key held its desired velocity is the zero vector. -/
theorem c8_continuous_feed (cam : Quat) (kb : Keyboard) :
    walkCalls (apply_controls true (some cam) kb) =
      [⟨Vec3.scale (Quat.mul_vec3 (flat_rotation (flat_forward cam)) (intentVec kb)) 5,
        1.1⟩] ∧
    ((kb.arrowUp || kb.keyW) = false → (kb.arrowDown || kb.keyS) = false →
      (kb.arrowLeft || kb.keyA) = false → (kb.arrowRight || kb.keyD) = false →
      Vec3.scale (Quat.mul_vec3 (flat_rotation (flat_forward cam)) (intentVec kb)) 5 =
        Vec3.zero) := by
  constructor
  · by_cases hs : kb.space <;> simp [apply_controls, walkCalls, hs]
  · intro h1 h2 h3 h4
    have hint : intentVec kb = Vec3.zero := by
      simp [intentVec, h1, h2, h3, h4]
    rw [hint, Quat.mul_vec3_zero]
    simp [Vec3.scale, Vec3.zero]

/-- Witness for C8: no key held, camera yawed half a turn. -/
theorem c8_continuous_feed_witness :
    walkCalls
        (apply_controls true (some ⟨0, 0, 1, 0⟩)
          (Keyboard.mk false false false false false false false false false)) =
      [⟨Vec3.scale
          (Quat.mul_vec3 (flat_rotation (flat_forward ⟨0, 0, 1, 0⟩))
            (intentVec (Keyboard.mk false false false false false false false false false))) 5,
        1.1⟩] ∧
    Vec3.scale
        (Quat.mul_vec3 (flat_rotation (flat_forward ⟨0, 0, 1, 0⟩))
          (intentVec (Keyboard.mk false false false false false false false false false))) 5 =
      Vec3.zero :=
  ⟨(c8_continuous_feed _ _).1, (c8_continuous_feed _ _).2 rfl rfl rfl rfl⟩

/-- Claim C9: a jump action of height 2 is fed exactly on the frames where the
space key is held, with no debouncing: over any run of frames that all hold
space, every frame feeds the jump action. -/
theorem c9_jump_trigger (cam : Quat) (kb : Keyboard) :
    jumpCalls (apply_controls true (some cam) kb) = (if kb.space then [⟨2⟩] else []) ∧
    (∀ frames : List Keyboard, frames.all (fun f => f.space) = true →
      frames.map (fun f => jumpCalls (apply_controls true (some cam) f)) =
        frames.map (fun _ => [⟨2⟩])) := by
  constructor
  · by_cases hs : kb.space <;> simp [apply_controls, jumpCalls, hs]
  · intro frames hall
    have h := List.all_eq_true.mp hall
    apply List.map_congr_left
    intro f hf
    have hfs : f.space = true := by simpa using h f hf
    simp [apply_controls, jumpCalls, hfs]

/-- Witness for C9: three consecutive frames with space held. -/
theorem c9_jump_trigger_witness :
    ([Keyboard.mk false false false false false false false false true,
        Keyboard.mk false false false false false false false false true,
        Keyboard.mk false false false false false false false false true].all
        (fun f => f.space)) = true ∧
    ([Keyboard.mk false false false false false false false false true,
        Keyboard.mk false false false false false false false false true,
        Keyboard.mk false false false false false false false false true].map
        (fun f => jumpCalls (apply_controls true (some ⟨1, 0, 0, 0⟩) f)) =
      [Keyboard.mk false false false false false false false false true,
        Keyboard.mk false false false false false false false false true,
        Keyboard.mk false false false false false false false false true].map
        (fun _ => [⟨2⟩])) :=
  ⟨rfl,
    (c9_jump_trigger ⟨1, 0, 0, 0⟩
        (Keyboard.mk false false false false false false false false true)).2 _ rfl⟩

/-- Claim C6: on a frame with no headset view pose available, the headset path
makes no sink call at all: the command is skipped, not replaced by a
zero-velocity command, and nothing fails. -/
theorem c6_missing_view_skips (char_present : Bool) (states : List ActionState) :
    apply_oxr_controls char_present states [] = [] := by
  cases char_present with
  | false => rfl
  | true => simpa [apply_oxr_controls] using apply_oxr_loop_no_view states

/-- Counterexample to C5 as stated: with the character, the camera, a vector
action state and a headset view all present in the same frame, the flat path
and the headset path both feed a basis. -/
theorem c5_dual_source_counterexample :
    walkCalls
        (apply_controls true (some ⟨1, 0, 0, 0⟩)
          (Keyboard.mk false false false false false false false false false)) ≠ [] ∧
      walkCalls (apply_oxr_controls true [ActionState.vector 0 0] [⟨1, 0, 0, 0⟩]) ≠ [] := by
  constructor
  · simp [apply_controls, walkCalls]
  · simp [apply_oxr_controls, apply_oxr_loop, walkCalls]

/-- Claim C5, amended: a path whose reference source is missing contributes no
basis — the headset path feeds nothing without a view and the flat path feeds
nothing without the camera — so the two paths only ever both contribute when a
camera and a headset view (with a vector action state) are simultaneously
present, as in the counterexample. -/
theorem c5_single_source (char_present : Bool) (kb : Keyboard) (states : List ActionState) :
    walkCalls (apply_oxr_controls char_present states []) = [] ∧
      walkCalls (apply_controls char_present none kb) = [] := by
  constructor
  · cases char_present with
    | false => rfl
    | true => simp [apply_oxr_controls, apply_oxr_loop_no_view, walkCalls]
  · cases char_present with
    | false => rfl
    | true => rfl

/-- Counterexample to C4 as stated: for the 2D intent `(0, 1)` of length 1 and
the headset orientation pitched a quarter turn up (a unit quaternion), the
rotated intent is vertical, so the flattened, renormalized, rescaled movement
has magnitude 0, not 1. -/
theorem c4_headset_magnitude_counterexample :
    Real.sqrt ((0 : ℝ) ^ 2 + 1 ^ 2) = 1 ∧
    Vec3.length (oxrMovement ⟨Real.sqrt 2 / 2, Real.sqrt 2 / 2, 0, 0⟩ 0 1) = 0 ∧
    Vec3.length (oxrMovement ⟨Real.sqrt 2 / 2, Real.sqrt 2 / 2, 0, 0⟩ 0 1) ≠
      Real.sqrt ((0 : ℝ) ^ 2 + 1 ^ 2) := by
  have h1 : Real.sqrt ((0 : ℝ) ^ 2 + 1 ^ 2) = 1 := by norm_num
  have hz : Vec3.length Vec3.zero = 0 := by
    unfold Vec3.length Vec3.dot Vec3.zero
    norm_num
  have h2 : Vec3.length (oxrMovement ⟨Real.sqrt 2 / 2, Real.sqrt 2 / 2, 0, 0⟩ 0 1) = 0 := by
    unfold oxrMovement
    rw [rotX_like_flattened_zero]
    unfold Vec3.normalize_or_zero
    rw [if_neg (by rw [hz]; exact lt_irrefl 0)]
    rw [Vec3.length_scale, hz, mul_zero]
  refine ⟨h1, h2, ?_⟩
  rw [h2, h1]
  norm_num

/-- Claim C4, amended: for every 2D intent vector and every headset orientation
for which the rotated, flattened intent is nonzero (in particular any yaw-only
orientation), the movement vector emitted by the headset path has magnitude
exactly the original 2D intent length; when the flattened vector is zero the
magnitude is 0 instead, as the counterexample shows. -/
theorem c4_headset_magnitude (q : Quat) (sx sy : ℝ)
    (h : Vec3.with_y (Quat.mul_vec3 q ⟨sx, 0, -sy⟩) 0 ≠ Vec3.zero) :
    Vec3.length (oxrMovement q sx sy) = Real.sqrt (sx ^ 2 + sy ^ 2) := by
  unfold oxrMovement Vec3.normalize_or_zero
  set u := Vec3.with_y (Quat.mul_vec3 q ⟨sx, 0, -sy⟩) 0 with hu
  have hp : 0 < Vec3.length u := Vec3.length_pos u h
  rw [if_pos hp]
  rw [Vec3.length_scale, Vec3.length_scale]
  rw [abs_of_pos (one_div_pos.mpr hp), one_div, inv_mul_cancel₀ (ne_of_gt hp), mul_one]
  rw [abs_of_nonneg (Vec3.length_nonneg _)]
  unfold Vec3.length Vec3.dot
  congr 1
  ring

/-- Witness for C4 (amended) at the identity headset orientation and the
2D intent `(0, 1)`. -/
theorem c4_headset_magnitude_witness :
    Vec3.with_y (Quat.mul_vec3 ⟨1, 0, 0, 0⟩ ⟨0, 0, -1⟩) 0 ≠ Vec3.zero ∧
    Vec3.length (oxrMovement ⟨1, 0, 0, 0⟩ 0 1) = Real.sqrt ((0 : ℝ) ^ 2 + 1 ^ 2) := by
  have hv : Vec3.with_y (Quat.mul_vec3 ⟨1, 0, 0, 0⟩ ⟨0, 0, -1⟩) 0 = ⟨0, 0, -1⟩ := by
    simp only [Quat.mul_vec3, Quat.xyz, Vec3.dot, Vec3.cross, Vec3.scale, Vec3.add, Vec3.with_y]
    rw [Vec3.mk.injEq]
    refine ⟨by ring, rfl, by ring⟩
  have hne : Vec3.with_y (Quat.mul_vec3 ⟨1, 0, 0, 0⟩ ⟨0, 0, -1⟩) 0 ≠ Vec3.zero := by
    rw [hv, Vec3.zero]
    intro hz
    rw [Vec3.mk.injEq] at hz
    norm_num at hz
  exact ⟨hne, c4_headset_magnitude ⟨1, 0, 0, 0⟩ 0 1 hne⟩

/-- Claim C10: whenever the flattened camera forward is nonzero, the unguarded
normalization in `apply_controls` yields a unit vector (so the basis and the
emitted velocity are well defined); the precondition is necessary since the
configured pitch limit of 90 degrees admits the fully vertical camera forward
(yaw 0, pitch 90), whose flattened forward is the zero vector. -/
theorem c10_flat_basis_welldef (cam : Quat)
    (h : Vec3.with_y (Quat.mul_vec3 cam ⟨0, 0, -1⟩) 0 ≠ Vec3.zero) :
    Vec3.length (flat_forward cam) = 1 ∧
    mouseSettingsConfig.pitch_limit = 90 ∧
    Vec3.with_y
        (Quat.mul_vec3
          (Quat.mul (Quat.from_axis_angle Vec3.Y (toRadians 0))
            (Quat.from_axis_angle Vec3.X (toRadians 90)))
          ⟨0, 0, -1⟩) 0 = Vec3.zero := by
  refine ⟨Vec3.length_normalize _ h, rfl, ?_⟩
  have hy : Quat.from_axis_angle Vec3.Y (toRadians 0) = ⟨1, 0, 0, 0⟩ := by
    simp [Quat.from_axis_angle, Vec3.Y, toRadians]
  have h90 : toRadians 90 = Real.pi / 2 := by
    unfold toRadians
    ring
  have hx : Quat.from_axis_angle Vec3.X (toRadians 90) =
      ⟨Real.sqrt 2 / 2, Real.sqrt 2 / 2, 0, 0⟩ := by
    simp only [Quat.from_axis_angle, Vec3.X, h90]
    rw [show Real.pi / 2 / 2 = Real.pi / 4 by ring, Real.cos_pi_div_four, Real.sin_pi_div_four]
    rw [Quat.mk.injEq]
    refine ⟨rfl, by ring, by ring, by ring⟩
  rw [hy, hx]
  have hone : Quat.mul ⟨1, 0, 0, 0⟩ ⟨Real.sqrt 2 / 2, Real.sqrt 2 / 2, 0, 0⟩ =
      ⟨Real.sqrt 2 / 2, Real.sqrt 2 / 2, 0, 0⟩ := by
    simp only [Quat.mul]
    rw [Quat.mk.injEq]
    refine ⟨by ring, by ring, by ring, by ring⟩
  rw [hone]
  exact rotX_like_flattened_zero _

/-- Witness for C10 at the camera yawed half a turn, whose flattened forward is
`(0,0,1)`. -/
theorem c10_flat_basis_welldef_witness :
    Vec3.with_y (Quat.mul_vec3 ⟨0, 0, 1, 0⟩ ⟨0, 0, -1⟩) 0 ≠ Vec3.zero ∧
      Vec3.length (flat_forward ⟨0, 0, 1, 0⟩) = 1 := by
  have hv : Vec3.with_y (Quat.mul_vec3 ⟨0, 0, 1, 0⟩ ⟨0, 0, -1⟩) 0 = ⟨0, 0, 1⟩ := by
    simp only [Quat.mul_vec3, Quat.xyz, Vec3.dot, Vec3.cross, Vec3.scale, Vec3.add, Vec3.with_y]
    rw [Vec3.mk.injEq]
    refine ⟨by ring, rfl, by ring⟩
  have hne : Vec3.with_y (Quat.mul_vec3 ⟨0, 0, 1, 0⟩ ⟨0, 0, -1⟩) 0 ≠ Vec3.zero := by
    rw [hv, Vec3.zero]
    intro hz
    rw [Vec3.mk.injEq] at hz
    norm_num at hz
  exact ⟨hne, (c10_flat_basis_welldef _ hne).1⟩

end
